import Mathlib

/-!
Shallow embedding of the walk-forward backtesting engine
(`src/ml/core/backtest.py`, class `WalkForwardBacktest`) together with
theorems settling the specification claims about it.

Modelling conventions:
* Prices, capital and thresholds are rationals (`ℚ`); the Python floats are
  modelled exactly, overflow/rounding of IEEE floats is out of scope.
* Timestamps are integers (`Int`); the Python `timedelta` windows become
  integer window lengths in the same unit.
* The ML model (`MLModel.fit` / `predict` / `predict_proba`) is external to
  this core; the engine is parametrised by a deterministic signal oracle
  `sig : List Row → List Row → List Int` giving, for a fold's train and test
  slices, the per-test-row signal stream that the model plus
  `_generate_signals_*` would produce.  The per-fold sklearn quality metrics
  (`calculate_metrics`) live in the external ML library and are not part of
  the financial state, so `FoldInfo` omits the `metrics` dictionary.
* Rational division by zero is total (`x / 0 = 0` in Lean); wherever the
  Python code could divide by zero the claims carry explicit positivity
  hypotheses.
-/

/-- Row of the input dataframe as the engine uses it: a timestamp and the
`close` price.  Feature and target columns are consumed only by the external
model, i.e. by the signal oracle. -/
structure Row where
  timestamp : Int
  close : ℚ
deriving DecidableEq

/-- Engine configuration: `train_window_days`, `test_window_days` and the
blended `total_cost_bps = fees_bps + slippage_bps` from `__init__`. -/
structure BTConfig where
  trainWindow : Int
  testWindow : Int
  totalCostBps : ℚ
deriving DecidableEq

/-- Carried trading state `(capital, position, entry_price)`;
`position` is `0` (flat) or `1` (long) as in the source. -/
structure SimState where
  capital : ℚ
  position : Int
  entryPrice : ℚ
deriving DecidableEq

/-- Trade record emitted by `_simulate_trading`: a BUY record carries
`(timestamp, price, cost, capital)`, a SELL record carries
`(timestamp, price, exit_price, pnl, capital)`. -/
inductive TradeRec where
  | buy (timestamp : Int) (price cost capital : ℚ)
  | sell (timestamp : Int) (price exitPrice pnl capital : ℚ)
deriving DecidableEq

/-- Equity point appended after every processed row (lines 260-267). -/
structure EquityRec where
  timestamp : Int
  capital : ℚ
  position : Int
  entryPrice : ℚ
  currentPrice : ℚ
  equity : ℚ
deriving DecidableEq

/-- Fold report entry (`fold_info`, lines 147-158), without the external
sklearn metrics dictionary. -/
structure FoldInfo where
  fold : Nat
  trainStart : Int
  trainEnd : Int
  testStart : Int
  testEnd : Int
  trainSamples : Nat
  testSamples : Nat
  trades : Nat
  pnl : ℚ
deriving DecidableEq

/-- Whole-run state threaded through the fold loop of `run`:
the carried trading state plus the accumulated fold reports, trade log and
equity records. -/
structure RunState where
  capital : ℚ
  position : Int
  entryPrice : ℚ
  folds : List FoldInfo
  trades : List TradeRec
  equityRecords : List EquityRec
deriving DecidableEq

/-- Probability row of a 3-class classifier: class 0 = SELL, 1 = HOLD,
2 = BUY (comment at line 118 of the source). -/
structure ProbRow where
  p0 : ℚ
  p1 : ℚ
  p2 : ℚ
deriving DecidableEq

/-- Per-row outcome of the two mask assignments in
`_generate_signals_classification` for the 3-class branch (lines 183-186):
the BUY mask is applied first, the SELL mask second, so a row satisfying
both ends up with the value written by the SELL assignment. -/
def classify3 (buyThreshold sellThreshold : ℚ) (p : ProbRow) : Int :=
  let afterBuy : Int := if buyThreshold ≤ p.p2 then 1 else 0
  if 1 - sellThreshold ≤ p.p0 then -1 else afterBuy

/-- 3-class branch of `_generate_signals_classification`: one signal per
probability row.  (The binary branch, lines 188-189, is not needed by any
claim and is omitted.) -/
def generate_signals_classification3
    (buyThreshold sellThreshold : ℚ) (proba : List ProbRow) : List Int :=
  proba.map (classify3 buyThreshold sellThreshold)

/-- Which model-update call the fold loop performs. -/
inductive UpdateAction where
  | fullFit
  | partialFit
  | noUpdate
deriving DecidableEq

/-- Model-update dispatch of `run`, lines 103-109: `fit` when
`fold_num == 1 or not self.online_learning`, else `partial_fit` when the
model supports it, else the `elif` chain falls through and nothing is
called. -/
def model_update_action (foldNum : Nat)
    (onlineLearning supportsPartialFit : Bool) : UpdateAction :=
  if foldNum = 1 ∨ onlineLearning = false then .fullFit
  else if supportsPartialFit then .partialFit
  else .noUpdate

/-- Body of the row loop of `_simulate_trading` (lines 219-267): executes at
most one trade and appends one equity point.  Returns the new state, the
trade records emitted on this row, and the equity point. -/
def simulate_step (cost : ℚ) (st : SimState) (row : Row) (signal : Int) :
    SimState × List TradeRec × EquityRec :=
  let price := row.close
  let (st2, newTrades) :=
    if signal = 1 ∧ st.position = 0 then
      let entry := price * (1 + cost / 10000)
      (⟨st.capital, 1, entry⟩,
        [TradeRec.buy row.timestamp price entry st.capital])
    else if signal = -1 ∧ st.position = 1 then
      let exitPrice := price * (1 - cost / 10000)
      let pnl := st.capital * ((exitPrice - st.entryPrice) / st.entryPrice)
      (⟨st.capital + pnl, 0, st.entryPrice⟩,
        [TradeRec.sell row.timestamp price exitPrice pnl (st.capital + pnl)])
    else (st, [])
  let currentValue :=
    if st2.position = 1 then
      st2.capital + st2.capital * ((price - st2.entryPrice) / st2.entryPrice)
    else st2.capital
  (st2, newTrades,
    { timestamp := row.timestamp
      capital := st2.capital
      position := st2.position
      entryPrice := if st2.position = 1 then st2.entryPrice else 0
      currentPrice := price
      equity := currentValue })

/-- `_simulate_trading`: processes the fold's rows in order against the
signal stream (row `i` pairs with `signals.iloc[i]`), returning the trade
records and the equity series. -/
def simulate_trading (cost : ℚ) :
    List Row → List Int → SimState → List TradeRec × List EquityRec
  | [], _, _ => ([], [])
  | _ :: _, [], _ => ([], [])
  | row :: rows, sg :: sgs, st =>
    let r := simulate_step cost st row sg
    let rest := simulate_trading cost rows sgs r.1
    (r.2.1 ++ rest.1, r.2.2 :: rest.2)

/-- Realized P&L values of the SELL records in a trade log, in order. -/
def sell_pnls (trades : List TradeRec) : List ℚ :=
  trades.filterMap fun t =>
    match t with
    | .sell _ _ _ pnl _ => some pnl
    | .buy _ _ _ _ => none

/-- Timestamp order used by `df.sort_values("timestamp")`. -/
def ts_le (a b : Row) : Prop := a.timestamp ≤ b.timestamp

/-- Strict timestamp order; used to show that sorting a table with pairwise
distinct timestamps has a unique result. -/
def ts_lt (a b : Row) : Prop := a.timestamp < b.timestamp

instance : DecidableRel ts_le := fun a b =>
  inferInstanceAs (Decidable (a.timestamp ≤ b.timestamp))

instance : IsTotal Row ts_le := ⟨fun a b => Int.le_total a.timestamp b.timestamp⟩

instance : IsTrans Row ts_le := ⟨fun _ _ _ h1 h2 => le_trans h1 h2⟩

instance : IsAntisymm Row ts_lt :=
  ⟨fun _ _ h1 h2 => absurd (lt_trans h1 h2) (lt_irrefl _)⟩

/-- Line 69: `df.sort_values("timestamp")`. -/
def sort_rows (df : List Row) : List Row := List.insertionSort ts_le df

/-- Number of iterations of the `while current_date + test_window <= end_date`
loop (lines 75-98): the scheduled fold count, including folds that are later
skipped for lack of rows. -/
def num_folds (cfg : BTConfig) (startD endD : Int) : Nat :=
  (endD - (startD + cfg.trainWindow)).toNat / cfg.testWindow.toNat

/-- Half-open test windows `[test_start, test_end)` of the scheduled folds:
the k-th window starts at `start + train_window + k * test_window` and the
loop advances `current_date = test_end` each iteration (lines 89-90, 163). -/
def fold_test_windows (cfg : BTConfig) (startD endD : Int) : List (Int × Int) :=
  (List.range (num_folds cfg startD endD)).map fun k : Nat =>
    (startD + cfg.trainWindow + (k : Int) * cfg.testWindow,
     startD + cfg.trainWindow + ((k : Int) + 1) * cfg.testWindow)

/-- Evaluated-fold part of the loop body of `run` (lines 100-160), for the
scheduled fold of index `k` (0-based; `fold_num = k + 1`), test window `w`
and already sliced train/test data: simulate trading from the carried state
against the signal stream, update the carried state from the last equity
record of the fold (lines 133-137), and append the trade records and the
fold report. -/
def evaluate_fold (cfg : BTConfig) (initialCapital : ℚ) (st : RunState)
    (k : Nat) (w : Int × Int) (trainData testData : List Row)
    (signals : List Int) : RunState :=
  let res := simulate_trading cfg.totalCostBps testData signals
    ⟨st.capital, st.position, st.entryPrice⟩
  let st2 : RunState :=
    match res.2.getLast? with
    | some e =>
      { st with
        capital := e.capital
        position := e.position
        entryPrice := e.entryPrice
        equityRecords := st.equityRecords ++ res.2 }
    | none => st
  let foldPnl : ℚ :=
    if k = 0 then st2.capital - initialCapital
    else
      match res.2 with
      | [] => 0
      | e0 :: rest => (rest.getLastD e0).capital - e0.capital
  { st2 with
    trades := st2.trades ++ res.1
    folds := st2.folds ++ [{
      fold := k + 1
      trainStart := w.1 - cfg.trainWindow
      trainEnd := w.1
      testStart := w.1
      testEnd := w.2
      trainSamples := trainData.length
      testSamples := testData.length
      trades := res.1.length
      pnl := foldPnl }] }

/-- One iteration of the fold loop of `run` (lines 83-163) for the scheduled
fold of index `k` (0-based) with test window `w = (test_start, test_end)`:
slice train and test data by half-open timestamp intervals (lines 87-94),
skip the fold when undersized (lines 96-98), otherwise evaluate it. -/
def process_fold (cfg : BTConfig) (sig : List Row → List Row → List Int)
    (rows : List Row) (initialCapital : ℚ)
    (st : RunState) (kw : Nat × (Int × Int)) : RunState :=
  let testStart := kw.2.1
  let trainStart := testStart - cfg.trainWindow
  let trainData := rows.filter fun r =>
    decide (trainStart ≤ r.timestamp ∧ r.timestamp < testStart)
  let testData := rows.filter fun r =>
    decide (testStart ≤ r.timestamp ∧ r.timestamp < kw.2.2)
  if trainData.length < 100 ∨ testData.length < 10 then st
  else evaluate_fold cfg initialCapital st kw.1 kw.2 trainData testData
    (sig trainData testData)

/-- Fold loop of `run` on an already sorted table: determine the time range
(lines 72-73), then process every scheduled fold in order.  An empty table
has `NaN` bounds in the source and the while loop never runs; here it yields
the initial state directly. -/
def run_sorted (cfg : BTConfig) (sig : List Row → List Row → List Int)
    (rows : List Row) (initialCapital : ℚ) : RunState :=
  match rows with
  | [] => ⟨initialCapital, 0, 0, [], [], []⟩
  | r :: rs =>
    let startD := rs.foldl (fun m x => min m x.timestamp) r.timestamp
    let endD := rs.foldl (fun m x => max m x.timestamp) r.timestamp
    ((fold_test_windows cfg startD endD).enum).foldl
      (process_fold cfg sig rows initialCapital)
      ⟨initialCapital, 0, 0, [], [], []⟩

/-- `WalkForwardBacktest.run` up to the aggregate-metric computation:
sort by timestamp, then run the fold loop. -/
def run (cfg : BTConfig) (sig : List Row → List Row → List Int)
    (df : List Row) (initialCapital : ℚ) : RunState :=
  run_sorted cfg sig (sort_rows df) initialCapital

/-- Minimum of a list, `np.min` style (the source only applies it to
non-empty data; the empty case returns 0). -/
def list_min : List ℚ → ℚ
  | [] => 0
  | x :: xs => xs.foldl min x

/-- Drawdown series from a running maximum `m`: for each equity value `x`
the running maximum becomes `max m x` and the drawdown is
`(x - max m x) / max m x` (lines 287-289). -/
def dd_list (m : ℚ) : List ℚ → List ℚ
  | [] => []
  | x :: xs => (x - max m x) / max m x :: dd_list (max m x) xs

/-- Max-drawdown computation of `_calculate_overall_metrics` (lines 282-293):
for an equity curve of more than one point, the minimum of the drawdown
series (whose running maximum starts at the first value); otherwise 0. -/
def max_drawdown (equity : List ℚ) : ℚ :=
  match equity with
  | [] => 0
  | x :: xs => if 1 < (x :: xs).length then list_min (dd_list x (x :: xs)) else 0

/-- Consecutive percentage changes, `Series.pct_change().dropna()`
(line 283): the leading `NaN` is dropped. -/
def pct_changes : List ℚ → List ℚ
  | [] => []
  | [_] => []
  | x :: y :: xs => (y - x) / x :: pct_changes (y :: xs)

/-- Arithmetic mean (`Series.mean`); 0 on the empty list. -/
def mean (l : List ℚ) : ℚ := l.sum / l.length

/-- Square of the sample standard deviation `Series.std()` (`ddof = 1`):
`Σ (x - mean)² / (n - 1)` for `n ≥ 2`.  For `n ≤ 1` pandas returns `NaN`,
which fails every comparison; that case is modelled as 0 so that the guard
`std > 0` is false exactly as in the source. -/
def sample_var (l : List ℚ) : ℚ :=
  if l.length ≤ 1 then 0
  else ((l.map fun x => (x - mean l) * (x - mean l)).sum) / ((l.length : ℚ) - 1)

/-- Sharpe-ratio computation of `_calculate_overall_metrics` (lines 282-292):
0 when the equity curve has at most one point (or is absent), else
`mean(returns) / std(returns) * sqrt(252)` when `std(returns) > 0`, else 0.
`std > 0` holds iff the sample variance is positive (and the return series
has at least two entries, which `sample_var` already encodes). -/
noncomputable def sharpe (equity : List ℚ) : ℝ :=
  if 1 < equity.length then
    let rs := pct_changes equity
    if 0 < sample_var rs then
      ((mean rs : ℚ) : ℝ) / Real.sqrt ((sample_var rs : ℚ) : ℝ) * Real.sqrt 252
    else 0
  else 0

/-- Aggregate report of `_calculate_overall_metrics` (lines 271-308), minus
the real-valued `sharpe_ratio` entry, which is `sharpe` above. -/
structure OverallMetrics where
  initialCapital : ℚ
  finalCapital : ℚ
  totalReturn : ℚ
  totalTrades : Nat
  winningTrades : Nat
  losingTrades : Nat
  winRate : ℚ
  maxDrawdown : ℚ
  folds : List FoldInfo
deriving DecidableEq

/-- Computation of the aggregate report from the final capital, the trade
log and the equity column of the equity curve (lines 271-308). -/
def calculate_overall_metrics (initialCapital finalCapital : ℚ)
    (trades : List TradeRec) (equityCurve : List ℚ)
    (folds : List FoldInfo) : OverallMetrics :=
  let pnls := sell_pnls trades
  { initialCapital := initialCapital
    finalCapital := finalCapital
    totalReturn := (finalCapital - initialCapital) / initialCapital
    totalTrades := pnls.length
    winningTrades := (pnls.filter fun p => decide (0 < p)).length
    losingTrades := (pnls.filter fun p => decide (p < 0)).length
    winRate := if 0 < pnls.length then
        ((pnls.filter fun p => decide (0 < p)).length : ℚ) / (pnls.length : ℚ)
      else 0
    maxDrawdown := max_drawdown equityCurve
    folds := folds }

/-- Lines 165-172 of `run`: after the fold loop the aggregate report is
computed directly from the carried state — the final capital passed to
`_calculate_overall_metrics` is the carried `capital` as-is. -/
def run_metrics (cfg : BTConfig) (sig : List Row → List Row → List Int)
    (df : List Row) (initialCapital : ℚ) : OverallMetrics :=
  let st := run cfg sig df initialCapital
  calculate_overall_metrics initialCapital st.capital st.trades
    (st.equityRecords.map EquityRec.equity) st.folds

/-- Modelled from the spec (§4.3): the capital that a force-close of a still
open LONG position at price `lastPrice` would realize — the carried capital
plus the P&L of a SELL executed at that price.  The source contains no such
step; this definition exists to compare the spec's words with the code. -/
def spec_forced_close_capital (cost : ℚ) (st : RunState) (lastPrice : ℚ) : ℚ :=
  st.capital +
    st.capital * ((lastPrice * (1 - cost / 10000) - st.entryPrice) / st.entryPrice)

/-- Concrete configuration for evaluated-run examples: 100-day train window,
10-day test window, zero cost. -/
def sample_cfg : BTConfig := ⟨100, 10, 0⟩

/-- Concrete table with one row per day for days 0-110: close 100 up to day
104 and 200 from day 105 on.  The single scheduled fold trains on days
[0, 100) (100 rows) and tests on days [100, 110) (10 rows). -/
def sample_df : List Row :=
  (List.range 111).map fun k => ⟨(k : Int), if 105 ≤ k then 200 else 100⟩

/-- Signal oracle producing a BUY on a fold's first test row and HOLD on the
rest: the run ends still LONG. -/
def sample_sig : List Row → List Row → List Int :=
  fun _ testData => 1 :: List.replicate (testData.length - 1) 0

/-- Signal oracle producing no signals (its folds are skipped anyway in the
examples that use it). -/
def null_sig : List Row → List Row → List Int := fun _ _ => []

/-- Three rows on days 0-2 with constant close 1: with a one-day train
window and a one-day test window every scheduled fold has an undersized
train slice. -/
def tiny_df : List Row := [⟨0, 1⟩, ⟨1, 1⟩, ⟨2, 1⟩]

/-- Two rows with constant close 100, used with signals `[1, -1]` to drive
one BUY/SELL round trip. -/
def const_df : List Row := [⟨0, 100⟩, ⟨1, 100⟩]

lemma simulate_step_buy (cost : ℚ) (st : SimState) (row : Row) (sg : Int)
    (h1 : sg = 1) (h2 : st.position = 0) :
    simulate_step cost st row sg =
      (⟨st.capital, 1, row.close * (1 + cost / 10000)⟩,
       [TradeRec.buy row.timestamp row.close (row.close * (1 + cost / 10000)) st.capital],
       ⟨row.timestamp, st.capital, 1, row.close * (1 + cost / 10000), row.close,
        st.capital + st.capital * ((row.close - row.close * (1 + cost / 10000)) /
          (row.close * (1 + cost / 10000)))⟩) := by
  simp [simulate_step, h1, h2]

lemma simulate_step_sell (cost : ℚ) (st : SimState) (row : Row) (sg : Int)
    (h1 : sg = -1) (h2 : st.position = 1) :
    simulate_step cost st row sg =
      (⟨st.capital + st.capital * ((row.close * (1 - cost / 10000) - st.entryPrice) / st.entryPrice),
        0, st.entryPrice⟩,
       [TradeRec.sell row.timestamp row.close (row.close * (1 - cost / 10000))
         (st.capital * ((row.close * (1 - cost / 10000) - st.entryPrice) / st.entryPrice))
         (st.capital + st.capital * ((row.close * (1 - cost / 10000) - st.entryPrice) / st.entryPrice))],
       ⟨row.timestamp,
        st.capital + st.capital * ((row.close * (1 - cost / 10000) - st.entryPrice) / st.entryPrice),
        0, 0, row.close,
        st.capital + st.capital * ((row.close * (1 - cost / 10000) - st.entryPrice) / st.entryPrice)⟩) := by
  simp [simulate_step, h1, h2]

lemma simulate_step_hold (cost : ℚ) (st : SimState) (row : Row) (sg : Int)
    (h1 : ¬ (sg = 1 ∧ st.position = 0)) (h2 : ¬ (sg = -1 ∧ st.position = 1)) :
    simulate_step cost st row sg =
      (st, [],
       ⟨row.timestamp, st.capital, st.position,
        if st.position = 1 then st.entryPrice else 0, row.close,
        if st.position = 1 then
          st.capital + st.capital * ((row.close - st.entryPrice) / st.entryPrice)
        else st.capital⟩) := by
  simp [simulate_step, h1, h2]

lemma simulate_step_capital (cost : ℚ) (st : SimState) (row : Row) (sg : Int) :
    (simulate_step cost st row sg).1.capital
      = st.capital + (sell_pnls (simulate_step cost st row sg).2.1).sum := by
  by_cases h1 : sg = 1 ∧ st.position = 0
  · rw [simulate_step_buy cost st row sg h1.1 h1.2]
    simp [sell_pnls]
  · by_cases h2 : sg = -1 ∧ st.position = 1
    · rw [simulate_step_sell cost st row sg h2.1 h2.2]
      simp [sell_pnls]
    · rw [simulate_step_hold cost st row sg h1 h2]
      simp [sell_pnls]

lemma simulate_step_rec_capital (cost : ℚ) (st : SimState) (row : Row) (sg : Int) :
    (simulate_step cost st row sg).2.2.capital = (simulate_step cost st row sg).1.capital := by
  by_cases h1 : sg = 1 ∧ st.position = 0
  · rw [simulate_step_buy cost st row sg h1.1 h1.2]
  · by_cases h2 : sg = -1 ∧ st.position = 1
    · rw [simulate_step_sell cost st row sg h2.1 h2.2]
    · rw [simulate_step_hold cost st row sg h1 h2]

lemma sell_pnls_append (a b : List TradeRec) :
    sell_pnls (a ++ b) = sell_pnls a ++ sell_pnls b := by
  simp [sell_pnls, List.filterMap_append]

lemma simulate_trading_nil_trades (cost : ℚ) :
    ∀ (rows : List Row) (sgs : List Int) (st : SimState),
      (simulate_trading cost rows sgs st).2 = [] →
      (simulate_trading cost rows sgs st).1 = []
  | [], _, _, _ => rfl
  | _ :: _, [], _, _ => rfl
  | _ :: _, _ :: _, _, h => by simp [simulate_trading] at h

lemma simulate_trading_last_capital (cost : ℚ) :
    ∀ (rows : List Row) (sgs : List Int) (st : SimState),
      (match (simulate_trading cost rows sgs st).2.getLast? with
       | some e => e.capital
       | none => st.capital)
      = st.capital + (sell_pnls (simulate_trading cost rows sgs st).1).sum
  | [], _, st => by simp [simulate_trading, sell_pnls]
  | _ :: _, [], st => by simp [simulate_trading, sell_pnls]
  | row :: rows, sg :: sgs, st => by
    have ih := simulate_trading_last_capital cost rows sgs (simulate_step cost st row sg).1
    show (match ((simulate_step cost st row sg).2.2 ::
        (simulate_trading cost rows sgs (simulate_step cost st row sg).1).2).getLast? with
      | some e => e.capital
      | none => st.capital)
      = st.capital + (sell_pnls ((simulate_step cost st row sg).2.1 ++
          (simulate_trading cost rows sgs (simulate_step cost st row sg).1).1)).sum
    rcases hrest : (simulate_trading cost rows sgs (simulate_step cost st row sg).1).2 with _ | ⟨e, l⟩
    · have htr := simulate_trading_nil_trades cost rows sgs (simulate_step cost st row sg).1 hrest
      rw [htr]
      simp [simulate_step_rec_capital, simulate_step_capital, sell_pnls_append]
    · rw [hrest] at ih
      rw [List.getLast?_cons_cons]
      rw [sell_pnls_append, List.sum_append]
      rcases hlast : (e :: l).getLast? with _ | e2
      · simp at hlast
      · rw [hlast] at ih
        dsimp only at ih ⊢
        rw [ih, simulate_step_capital]
        ring

lemma evaluate_fold_capital (cfg : BTConfig) (cap0 : ℚ) (st : RunState)
    (k : Nat) (w : Int × Int) (trainData testData : List Row) (signals : List Int)
    (h : st.capital = cap0 + (sell_pnls st.trades).sum) :
    (evaluate_fold cfg cap0 st k w trainData testData signals).capital
      = cap0 + (sell_pnls (evaluate_fold cfg cap0 st k w trainData testData signals).trades).sum := by
  simp only [evaluate_fold]
  have hcap := simulate_trading_last_capital cfg.totalCostBps testData signals
    ⟨st.capital, st.position, st.entryPrice⟩
  rcases hr2 : (simulate_trading cfg.totalCostBps testData signals
      ⟨st.capital, st.position, st.entryPrice⟩).2 with _ | ⟨e0, l⟩
  · have htr := simulate_trading_nil_trades cfg.totalCostBps testData signals
      ⟨st.capital, st.position, st.entryPrice⟩ hr2
    rw [htr]
    simpa [sell_pnls_append, sell_pnls] using h
  · rw [hr2] at hcap
    rcases hlast : (e0 :: l).getLast? with _ | e2
    · simp at hlast
    · rw [hlast] at hcap
      dsimp only at hcap ⊢
      rw [sell_pnls_append, List.sum_append, hcap, h]
      ring

lemma process_fold_capital (cfg : BTConfig) (sig : List Row → List Row → List Int)
    (rows : List Row) (cap0 : ℚ) (st : RunState) (kw : Nat × Int × Int)
    (h : st.capital = cap0 + (sell_pnls st.trades).sum) :
    (process_fold cfg sig rows cap0 st kw).capital
      = cap0 + (sell_pnls (process_fold cfg sig rows cap0 st kw).trades).sum := by
  simp only [process_fold]
  split
  · exact h
  · exact evaluate_fold_capital cfg cap0 st kw.1 kw.2 _ _ _ h

lemma foldl_process_capital (cfg : BTConfig) (sig : List Row → List Row → List Int)
    (rows : List Row) (cap0 : ℚ) :
    ∀ (l : List (Nat × Int × Int)) (st : RunState),
      st.capital = cap0 + (sell_pnls st.trades).sum →
      (l.foldl (process_fold cfg sig rows cap0) st).capital
        = cap0 + (sell_pnls (l.foldl (process_fold cfg sig rows cap0) st).trades).sum
  | [], st, h => h
  | kw :: l, st, h => by
    rw [List.foldl_cons]
    exact foldl_process_capital cfg sig rows cap0 l _
      (process_fold_capital cfg sig rows cap0 st kw h)

lemma run_capital (cfg : BTConfig) (sig : List Row → List Row → List Int)
    (df : List Row) (cap0 : ℚ) :
    (run cfg sig df cap0).capital
      = cap0 + (sell_pnls (run cfg sig df cap0).trades).sum := by
  rw [run, run_sorted.eq_def]
  rcases sort_rows df with _ | ⟨r, rs⟩
  · simp [sell_pnls]
  · exact foldl_process_capital cfg sig _ cap0 _ _ (by simp [sell_pnls])

/-- C1: the claim asserts that a run which ends still LONG force-closes at
the final available close price and folds the realized P&L into the
reported final capital.  The code does no such thing; the amended statement
proved here: the reported final capital is the initial capital plus the sum
of the realized P&L of the recorded SELL trades only — an open position's
close-out P&L is never included. -/
theorem c1_final_capital_realized_only (cfg : BTConfig)
    (sig : List Row → List Row → List Int) (df : List Row) (cap0 : ℚ) :
    (run_metrics cfg sig df cap0).finalCapital
      = cap0 + (sell_pnls (run cfg sig df cap0).trades).sum := by
  rw [run_metrics]
  exact run_capital cfg sig df cap0

lemma evaluate_fold_folds_mem (cfg : BTConfig) (cap0 : ℚ) (st : RunState)
    (k : Nat) (w : Int × Int) (trainData testData : List Row) (signals : List Int) :
    ∀ f ∈ (evaluate_fold cfg cap0 st k w trainData testData signals).folds,
      f ∈ st.folds ∨ (f.trainSamples = trainData.length ∧ f.testSamples = testData.length) := by
  simp only [evaluate_fold]
  rcases hr2 : (simulate_trading cfg.totalCostBps testData signals
      ⟨st.capital, st.position, st.entryPrice⟩).2 with _ | ⟨e0, l⟩
  · intro f hf
    simp only [List.mem_append, List.mem_singleton] at hf
    rcases hf with hf | hf
    · exact Or.inl hf
    · subst hf
      exact Or.inr ⟨rfl, rfl⟩
  · rcases hlast : (e0 :: l).getLast? with _ | e2
    · simp at hlast
    · dsimp only
      intro f hf
      simp only [List.mem_append, List.mem_singleton] at hf
      rcases hf with hf | hf
      · exact Or.inl hf
      · subst hf
        exact Or.inr ⟨rfl, rfl⟩

lemma process_fold_folds (cfg : BTConfig) (sig : List Row → List Row → List Int)
    (rows : List Row) (cap0 : ℚ) (st : RunState) (kw : Nat × Int × Int)
    (h : ∀ f ∈ st.folds, 100 ≤ f.trainSamples ∧ 10 ≤ f.testSamples) :
    ∀ f ∈ (process_fold cfg sig rows cap0 st kw).folds,
      100 ≤ f.trainSamples ∧ 10 ≤ f.testSamples := by
  simp only [process_fold]
  split
  · exact h
  · rename_i hcond
    intro f hf
    rcases evaluate_fold_folds_mem cfg cap0 st kw.1 kw.2 _ _ _ f hf with hmem | ⟨h1, h2⟩
    · exact h f hmem
    · rw [h1, h2]
      omega

lemma foldl_process_folds (cfg : BTConfig) (sig : List Row → List Row → List Int)
    (rows : List Row) (cap0 : ℚ) :
    ∀ (l : List (Nat × Int × Int)) (st : RunState),
      (∀ f ∈ st.folds, 100 ≤ f.trainSamples ∧ 10 ≤ f.testSamples) →
      ∀ f ∈ (l.foldl (process_fold cfg sig rows cap0) st).folds,
        100 ≤ f.trainSamples ∧ 10 ≤ f.testSamples
  | [], _, h => h
  | kw :: l, st, h => by
    rw [List.foldl_cons]
    exact foldl_process_folds cfg sig rows cap0 l _
      (process_fold_folds cfg sig rows cap0 st kw h)

/-- C4: the claim asserts that an undersized fold still appends a
`skipped: true` entry to the fold report list.  The code's `continue` at
lines 96-98 appends nothing; the amended statement proved here: undersized
folds are skipped without error but silently omitted — every recorded fold
report comes from an evaluated fold, with at least 100 train rows and at
least 10 test rows. -/
theorem c4_recorded_folds_are_evaluated (cfg : BTConfig)
    (sig : List Row → List Row → List Int) (df : List Row) (cap0 : ℚ) :
    ∀ f ∈ (run cfg sig df cap0).folds,
      100 ≤ f.trainSamples ∧ 10 ≤ f.testSamples := by
  rw [run, run_sorted.eq_def]
  rcases sort_rows df with _ | ⟨r, rs⟩
  · intro f hf
    simp at hf
  · exact foldl_process_folds cfg sig _ cap0 _ _ (by intro f hf; simp at hf)

set_option maxRecDepth 100000

/-- C4 witness: the sample run records exactly its one evaluated fold
(100 train rows, 10 test rows), and the theorem applies to it. -/
theorem c4_witness :
    (⟨1, 0, 100, 100, 110, 100, 10, 1, 0⟩ : FoldInfo) ∈
        (run sample_cfg sample_sig sample_df 10000).folds ∧
      100 ≤ (⟨1, 0, 100, 100, 110, 100, 10, 1, 0⟩ : FoldInfo).trainSamples ∧
      10 ≤ (⟨1, 0, 100, 100, 110, 100, 10, 1, 0⟩ : FoldInfo).testSamples := by
  have hmem : (⟨1, 0, 100, 100, 110, 100, 10, 1, 0⟩ : FoldInfo) ∈
      (run sample_cfg sample_sig sample_df 10000).folds := by
    with_unfolding_all decide
  exact ⟨hmem, c4_recorded_folds_are_evaluated sample_cfg sample_sig sample_df 10000 _ hmem⟩

/-- C4 counterexample: with one-day windows over three days the single
scheduled fold is undersized (1 train row < 100); the run raises nothing
but the fold report list is empty — no `skipped` entry is recorded. -/
theorem c4_counterexample :
    (fold_test_windows ⟨1, 1, 0⟩ 0 2).length = 1 ∧
      (run ⟨1, 1, 0⟩ null_sig tiny_df 100).folds = [] := by
  exact ⟨by with_unfolding_all rfl, by with_unfolding_all rfl⟩

/-- C1 counterexample: the sample run ends still LONG (position 1, entered
at 100), the final available close price is 200, a force-close would
realize capital 20000, yet the reported final capital is the carried 10000:
no force-close happens before the aggregate metrics are computed. -/
theorem c1_counterexample :
    (run sample_cfg sample_sig sample_df 10000).position = 1 ∧
      ((run sample_cfg sample_sig sample_df 10000).equityRecords.getLast?.map
        EquityRec.currentPrice) = some 200 ∧
      (run_metrics sample_cfg sample_sig sample_df 10000).finalCapital = 10000 ∧
      spec_forced_close_capital sample_cfg.totalCostBps
        (run sample_cfg sample_sig sample_df 10000) 200 = 20000 ∧
      (10000 : ℚ) ≠ 20000 := by
  refine ⟨?_, ?_, ?_, ?_, ?_⟩
  · with_unfolding_all rfl
  · with_unfolding_all rfl
  · with_unfolding_all rfl
  · with_unfolding_all rfl
  · with_unfolding_all decide

/-- C2 counterexample: with `buy_threshold = sell_threshold = 1/2` and a
probability row whose BUY probability meets the BUY threshold and whose
SELL probability meets the SELL threshold, the emitted signal is `-1`
(SELL), not `1` (BUY): the SELL mask is assigned last and wins. -/
theorem c2_counterexample :
    ((1 : ℚ)/2 ≤ (⟨1/2, 0, 1/2⟩ : ProbRow).p2) ∧
      (1 - (1 : ℚ)/2 ≤ (⟨1/2, 0, 1/2⟩ : ProbRow).p0) ∧
      generate_signals_classification3 (1/2) (1/2) [⟨1/2, 0, 1/2⟩] = [-1] ∧
      (-1 : Int) ≠ 1 := by
  refine ⟨?_, ?_, ?_, ?_⟩
  · with_unfolding_all decide
  · with_unfolding_all decide
  · with_unfolding_all rfl
  · decide

/-- C2: the claim gives BUY precedence when both thresholds are met on one
row; in the code the SELL assignment is executed after the BUY assignment
and overwrites it, so SELL takes precedence.  Amended statement: whenever
the SELL condition holds for a row — in particular when both conditions
hold — the emitted signal for that row is `-1`. -/
theorem c2_sell_precedence (buyThreshold sellThreshold : ℚ)
    (ps qs : List ProbRow) (p : ProbRow)
    (hbuy : buyThreshold ≤ p.p2) (hsell : 1 - sellThreshold ≤ p.p0) :
    generate_signals_classification3 buyThreshold sellThreshold (ps ++ p :: qs)
      = generate_signals_classification3 buyThreshold sellThreshold ps
        ++ -1 :: generate_signals_classification3 buyThreshold sellThreshold qs := by
  simp [generate_signals_classification3, classify3, hsell]

/-- C2 witness: the amended theorem applied at the counterexample row. -/
theorem c2_sell_precedence_witness :
    ((1 : ℚ)/2 ≤ (⟨1/2, 0, 1/2⟩ : ProbRow).p2) ∧
      generate_signals_classification3 (1/2) (1/2) ([] ++ (⟨1/2, 0, 1/2⟩ : ProbRow) :: [])
        = generate_signals_classification3 (1/2) (1/2) []
          ++ -1 :: generate_signals_classification3 (1/2) (1/2) [] := by
  have hbuy : (1 : ℚ)/2 ≤ (⟨1/2, 0, 1/2⟩ : ProbRow).p2 := by with_unfolding_all decide
  exact ⟨hbuy, c2_sell_precedence (1/2) (1/2) [] [] _ hbuy (by with_unfolding_all decide)⟩

/-- C3: with online learning enabled, on a fold after the first whose model
does not support `partial_fit`, the `if/elif` chain of lines 103-109 calls
neither `fit` nor `partial_fit` — the code performs no update at all, while
spec and claim require a full-retrain fallback. -/
theorem c3_no_update_fallback :
    model_update_action 2 true false = UpdateAction.noUpdate ∧
      UpdateAction.noUpdate ≠ UpdateAction.fullFit := by
  exact ⟨rfl, by decide⟩

lemma exists_window_cover (a te : Int) (hte : 0 ≤ te) :
    ∀ (n : Nat) (t : Int),
      (∃ k : Nat, k < n ∧ a + (k : Int) * te ≤ t ∧ t < a + ((k : Int) + 1) * te)
        ↔ (a ≤ t ∧ t < a + (n : Int) * te)
  | 0, t => by
    constructor
    · rintro ⟨k, hk, -, -⟩
      omega
    · rintro ⟨h1, h2⟩
      simp only [Nat.cast_zero, zero_mul, add_zero] at h2
      omega
  | (n + 1), t => by
    have ih := exists_window_cover a te hte n t
    constructor
    · rintro ⟨k, hk, h1, h2⟩
      rcases Nat.lt_succ_iff_lt_or_eq.mp hk with hk2 | rfl
      · obtain ⟨ha, hb⟩ := ih.mp ⟨k, hk2, h1, h2⟩
        refine ⟨ha, ?_⟩
        have hmul : (n : Int) * te ≤ ((n : Int) + 1) * te := by nlinarith
        push_cast
        linarith
      · have hnn : 0 ≤ (k : Int) * te := mul_nonneg (by positivity) hte
        refine ⟨by linarith, ?_⟩
        push_cast
        linarith
    · rintro ⟨h1, h2⟩
      by_cases hlt : t < a + (n : Int) * te
      · obtain ⟨k, hk, hh⟩ := ih.mpr ⟨h1, hlt⟩
        exact ⟨k, Nat.lt_succ_of_lt hk, hh⟩
      · push_neg at hlt
        refine ⟨n, Nat.lt_succ_self n, hlt, ?_⟩
        push_cast at h2
        linarith

lemma mem_fold_test_windows (cfg : BTConfig) (startD endD : Int) (w : Int × Int) :
    w ∈ fold_test_windows cfg startD endD ↔
      ∃ k : Nat, k < num_folds cfg startD endD ∧
        w = (startD + cfg.trainWindow + (k : Int) * cfg.testWindow,
             startD + cfg.trainWindow + ((k : Int) + 1) * cfg.testWindow) := by
  rw [fold_test_windows, List.mem_map]
  constructor
  · rintro ⟨k, hk, rfl⟩
    exact ⟨k, List.mem_range.mp hk, rfl⟩
  · rintro ⟨k, hk, rfl⟩
    exact ⟨k, List.mem_range.mpr hk, rfl⟩

/-- C5: the claim asserts the scheduled test windows tile
`[start + train_window, end)` exactly.  They are indeed pairwise disjoint
consecutive half-open intervals, but the loop stops at the last window that
fits fully, so the union is exactly
`[start + train_window, start + train_window + num_folds * test_window)`;
the final partial remainder of `[start + train_window, end)` — nonempty
whenever `test_window` does not divide the span — is not covered.  This is
the amended statement. -/
theorem c5_windows_disjoint_cover (cfg : BTConfig) (startD endD : Int)
    (hte : 0 < cfg.testWindow) :
    List.Pairwise (fun w1 w2 : Int × Int => ∀ t : Int,
        ¬ (w1.1 ≤ t ∧ t < w1.2 ∧ w2.1 ≤ t ∧ t < w2.2))
      (fold_test_windows cfg startD endD)
    ∧ ∀ t : Int,
        (∃ w ∈ fold_test_windows cfg startD endD, w.1 ≤ t ∧ t < w.2)
          ↔ (startD + cfg.trainWindow ≤ t ∧
             t < startD + cfg.trainWindow +
               (num_folds cfg startD endD : Int) * cfg.testWindow) := by
  constructor
  · rw [fold_test_windows, List.pairwise_map]
    apply List.Pairwise.imp ?_ (List.pairwise_lt_range (num_folds cfg startD endD))
    rintro k j hkj t ⟨h1, h2, h3, h4⟩
    dsimp only at h1 h2 h3 h4
    have hcast : (k : Int) + 1 ≤ (j : Int) := by exact_mod_cast hkj
    have hmul : ((k : Int) + 1) * cfg.testWindow ≤ (j : Int) * cfg.testWindow :=
      mul_le_mul_of_nonneg_right hcast (le_of_lt hte)
    linarith
  · intro t
    constructor
    · rintro ⟨w, hw, hle, hlt⟩
      obtain ⟨k, hk, rfl⟩ := (mem_fold_test_windows cfg startD endD w).mp hw
      exact (exists_window_cover (startD + cfg.trainWindow) cfg.testWindow
        (le_of_lt hte) (num_folds cfg startD endD) t).mp ⟨k, hk, hle, hlt⟩
    · intro h
      obtain ⟨k, hk, h1, h2⟩ := (exists_window_cover (startD + cfg.trainWindow)
        cfg.testWindow (le_of_lt hte) (num_folds cfg startD endD) t).mpr h
      exact ⟨_, (mem_fold_test_windows cfg startD endD _).mpr ⟨k, hk, rfl⟩, h1, h2⟩

/-- C5 witness: the amended theorem applied to the counterexample
configuration (train window 1, test window 2, range [0, 4]). -/
theorem c5_windows_witness :
    (0 : Int) < (⟨1, 2, 0⟩ : BTConfig).testWindow ∧
      (List.Pairwise (fun w1 w2 : Int × Int => ∀ t : Int,
          ¬ (w1.1 ≤ t ∧ t < w1.2 ∧ w2.1 ≤ t ∧ t < w2.2))
        (fold_test_windows ⟨1, 2, 0⟩ 0 4)
      ∧ ∀ t : Int,
          (∃ w ∈ fold_test_windows ⟨1, 2, 0⟩ 0 4, w.1 ≤ t ∧ t < w.2)
            ↔ ((0 : Int) + 1 ≤ t ∧
               t < 0 + 1 + (num_folds ⟨1, 2, 0⟩ 0 4 : Int) * 2)) := by
  exact ⟨by decide, c5_windows_disjoint_cover ⟨1, 2, 0⟩ 0 4 (by decide)⟩

/-- C5 counterexample: with train window 1, test window 2 over `[0, 4]`
(a valid configuration: positive windows, end after start), the timestamp 3
lies in `[start + train_window, end) = [1, 4)` but in no scheduled test
window — the single window is `[1, 3)`, so coverage of `[1, 4)` fails. -/
theorem c5_counterexample :
    fold_test_windows ⟨1, 2, 0⟩ 0 4 = [(1, 3)] ∧
      ((0 : Int) + 1 ≤ 3 ∧ (3 : Int) < 4) ∧
      ¬ ((1 : Int) ≤ 3 ∧ (3 : Int) < 3) := by
  decide

lemma foldl_min_le_init (xs : List ℚ) : ∀ x : ℚ, xs.foldl min x ≤ x := by
  induction xs with
  | nil => intro x; exact le_refl x
  | cons y ys ih =>
    intro x
    calc (y :: ys).foldl min x = ys.foldl min (min x y) := by rw [List.foldl_cons]
    _ ≤ min x y := ih (min x y)
    _ ≤ x := min_le_left x y

lemma foldl_min_le_mem (xs : List ℚ) : ∀ (x d : ℚ), d ∈ xs → xs.foldl min x ≤ d := by
  induction xs with
  | nil => intro x d h; simp at h
  | cons y ys ih =>
    intro x d h
    rw [List.foldl_cons]
    rcases List.mem_cons.mp h with rfl | h
    · calc ys.foldl min (min x d) ≤ min x d := foldl_min_le_init ys (min x d)
      _ ≤ d := min_le_right x d
    · exact ih (min x y) d h

lemma foldl_min_const (xs : List ℚ) : ∀ x : ℚ, (∀ d ∈ xs, x ≤ d) → xs.foldl min x = x := by
  induction xs with
  | nil => intro x _; rfl
  | cons y ys ih =>
    intro x h
    rw [List.foldl_cons, min_eq_left (h y (by simp))]
    exact ih x fun d hd => h d (by simp [hd])

lemma foldl_min_zero_iff (xs : List ℚ) : xs.foldl min 0 = 0 ↔ ∀ d ∈ xs, 0 ≤ d := by
  constructor
  · intro h d hd
    rw [← h]
    exact foldl_min_le_mem xs 0 d hd
  · exact foldl_min_const xs 0

lemma dd_list_nonneg_iff_chain :
    ∀ (l : List ℚ) (m : ℚ), 0 < m → (∀ z ∈ l, 0 < z) →
      ((∀ d ∈ dd_list m l, 0 ≤ d) ↔ List.Chain (· ≤ ·) m l)
  | [], m, _, _ => by simp [dd_list]
  | y :: ys, m, hm, hl => by
    have hy : 0 < y := hl y (by simp)
    rw [dd_list, List.chain_cons]
    by_cases hmy : m ≤ y
    · rw [max_eq_right hmy]
      have hdy : (y - y) / y = 0 := by rw [sub_self, zero_div]
      rw [hdy]
      have ih := dd_list_nonneg_iff_chain ys y hy fun z hz => hl z (by simp [hz])
      simp only [List.mem_cons, forall_eq_or_imp, le_refl, true_and]
      rw [ih]
      simp [hmy]
    · have hmax : max m y = m := max_eq_left (le_of_not_le hmy)
      rw [hmax]
      constructor
      · intro h
        exfalso
        have hd := h ((y - m) / m) (by simp)
        rw [le_div_iff₀ hm, zero_mul, sub_nonneg] at hd
        exact hmy hd
      · rintro ⟨h, -⟩
        exact absurd h hmy

/-- C6: the reported `max_drawdown` is never positive, and it is exactly 0
precisely when the equity curve is non-decreasing step by step; any dip
below the running maximum makes it strictly negative. -/
theorem c6_max_drawdown_nonpos (equity : List ℚ) (hpos : ∀ z ∈ equity, 0 < z) :
    max_drawdown equity ≤ 0 ∧
      (max_drawdown equity = 0 ↔ equity.Chain' (· ≤ ·)) := by
  match equity with
  | [] => simp [max_drawdown]
  | [x] => simp [max_drawdown]
  | x :: y :: ys =>
    have hx : 0 < x := hpos x (by simp)
    have hdd : max_drawdown (x :: y :: ys) = (dd_list x (y :: ys)).foldl min 0 := by
      rw [max_drawdown]
      rw [if_pos (by simp)]
      rw [dd_list, max_self, sub_self, zero_div]
      rfl
    rw [hdd]
    constructor
    · exact foldl_min_le_init _ 0
    · rw [foldl_min_zero_iff]
      have := dd_list_nonneg_iff_chain (y :: ys) x hx
        (fun z hz => hpos z (by simp [hz]))
      rw [this]
      exact Iff.rfl

/-- C6 witness: the theorem applied to the positive equity curve
`[4, 2, 3]`, which dips and therefore has a strictly negative drawdown. -/
theorem c6_max_drawdown_witness :
    (∀ z ∈ ([4, 2, 3] : List ℚ), 0 < z) ∧
      max_drawdown ([4, 2, 3] : List ℚ) ≤ 0 ∧
      (max_drawdown ([4, 2, 3] : List ℚ) = 0 ↔
        ([4, 2, 3] : List ℚ).Chain' (· ≤ ·)) := by
  have hpos : ∀ z ∈ ([4, 2, 3] : List ℚ), 0 < z := by
    intro z hz
    rcases List.mem_cons.mp hz with rfl | hz
    · norm_num
    rcases List.mem_cons.mp hz with rfl | hz
    · norm_num
    rcases List.mem_cons.mp hz with rfl | hz
    · norm_num
    · simp at hz
  exact ⟨hpos, c6_max_drawdown_nonpos [4, 2, 3] hpos⟩

/-- C7: when the equity-curve period returns have zero (sample) variance —
in particular for an all-flat curve — or the curve has at most one point,
the Sharpe ratio is exactly 0; neither branch divides by the zero standard
deviation. -/
theorem c7_sharpe_zero (equity : List ℚ)
    (h : sample_var (pct_changes equity) = 0 ∨ equity.length ≤ 1) :
    sharpe equity = 0 := by
  by_cases hlen : 1 < equity.length
  · have hvar : sample_var (pct_changes equity) = 0 := by
      rcases h with h | h
      · exact h
      · omega
    simp [sharpe, hlen, hvar]
  · simp [sharpe, hlen]

/-- C7 witness: the all-flat equity curve `[1, 1, 1]` has zero-variance
returns and Sharpe exactly 0. -/
theorem c7_sharpe_zero_witness :
    sample_var (pct_changes ([1, 1, 1] : List ℚ)) = 0 ∧
      sharpe ([1, 1, 1] : List ℚ) = 0 := by
  have hvar : sample_var (pct_changes ([1, 1, 1] : List ℚ)) = 0 := by
    with_unfolding_all rfl
  exact ⟨hvar, c7_sharpe_zero [1, 1, 1] (Or.inl hvar)⟩

lemma c8_aux (cost p : ℚ) (hc0 : 0 ≤ cost) (hc1 : cost ≤ 10000) (hp : 0 < p) :
    ∀ (rows : List Row) (sgs : List Int) (st : SimState),
      (∀ r ∈ rows, r.close = p) →
      0 ≤ st.capital →
      (st.position = 1 → st.entryPrice = p * (1 + cost / 10000)) →
      ∀ ts pr ex pnl capa,
        TradeRec.sell ts pr ex pnl capa ∈ (simulate_trading cost rows sgs st).1 →
        pnl ≤ 0 ∧ (cost = 0 → pnl = 0) := by
  have hcdiv : (0 : ℚ) ≤ cost / 10000 := div_nonneg hc0 (by norm_num)
  have hcdiv1 : cost / 10000 ≤ 1 := by
    rw [div_le_one (by norm_num : (0:ℚ) < 10000)]
    linarith
  have hfac : (0 : ℚ) < 1 + cost / 10000 := by linarith
  have hden : (0 : ℚ) < p * (1 + cost / 10000) := mul_pos hp hfac
  intro rows
  induction rows with
  | nil =>
    intro sgs st _ _ _ ts pr ex pnl capa h
    simp [simulate_trading] at h
  | cons r rows ih =>
    intro sgs st hconst hcap hentry ts pr ex pnl capa hmem
    cases sgs with
    | nil => simp [simulate_trading] at hmem
    | cons sg sgs =>
      have hclose : r.close = p := hconst r (by simp)
      simp only [simulate_trading] at hmem
      by_cases h1 : sg = 1 ∧ st.position = 0
      · rw [simulate_step_buy cost st r sg h1.1 h1.2] at hmem
        dsimp only at hmem
        rcases List.mem_append.mp hmem with hmem | hmem
        · simp at hmem
        · refine ih sgs ⟨st.capital, 1, r.close * (1 + cost / 10000)⟩
            (fun r2 hr2 => hconst r2 (by simp [hr2])) hcap ?_ ts pr ex pnl capa hmem
          intro _
          show r.close * (1 + cost / 10000) = p * (1 + cost / 10000)
          rw [hclose]
      · by_cases h2 : sg = -1 ∧ st.position = 1
        · rw [simulate_step_sell cost st r sg h2.1 h2.2] at hmem
          dsimp only at hmem
          have hent : st.entryPrice = p * (1 + cost / 10000) := hentry h2.2
          have hpnl_le : st.capital * ((r.close * (1 - cost / 10000) - st.entryPrice) /
              st.entryPrice) ≤ 0 := by
            rw [hclose, hent]
            have hnum : p * (1 - cost / 10000) - p * (1 + cost / 10000) ≤ 0 := by nlinarith
            have hdiv : (p * (1 - cost / 10000) - p * (1 + cost / 10000)) /
                (p * (1 + cost / 10000)) ≤ 0 :=
              div_nonpos_of_nonpos_of_nonneg hnum (le_of_lt hden)
            exact mul_nonpos_of_nonneg_of_nonpos hcap hdiv
          have hpnl_zero : cost = 0 → st.capital * ((r.close * (1 - cost / 10000) -
              st.entryPrice) / st.entryPrice) = 0 := by
            intro hc
            rw [hclose, hent, hc]
            norm_num
          have hcap2 : 0 ≤ st.capital + st.capital *
              ((r.close * (1 - cost / 10000) - st.entryPrice) / st.entryPrice) := by
            rw [hclose, hent]
            have heq : st.capital + st.capital * ((p * (1 - cost / 10000) -
                p * (1 + cost / 10000)) / (p * (1 + cost / 10000)))
                = st.capital * (p * (1 - cost / 10000)) / (p * (1 + cost / 10000)) := by
              field_simp
              ring
            rw [heq]
            apply div_nonneg _ (le_of_lt hden)
            apply mul_nonneg hcap
            nlinarith
          rcases List.mem_append.mp hmem with hmem | hmem
          · rw [List.mem_singleton] at hmem
            injection hmem with _ _ _ hpnl _
            subst hpnl
            exact ⟨hpnl_le, hpnl_zero⟩
          · refine ih sgs ⟨st.capital + st.capital * ((r.close * (1 - cost / 10000) -
                st.entryPrice) / st.entryPrice), 0, st.entryPrice⟩
              (fun r2 hr2 => hconst r2 (by simp [hr2])) hcap2 ?_ ts pr ex pnl capa hmem
            intro h
            simp at h
        · rw [simulate_step_hold cost st r sg h1 h2] at hmem
          dsimp only at hmem
          rcases List.mem_append.mp hmem with hmem | hmem
          · simp at hmem
          · exact ih sgs st (fun r2 hr2 => hconst r2 (by simp [hr2])) hcap hentry
              ts pr ex pnl capa hmem

/-- C8: the claim says a constant-price series never produces a trade with
non-zero `pnl`; because `total_cost_bps` is charged on both legs, each
round trip on a constant-price series actually loses money.  Amended
statement: starting FLAT on a constant-price series, every recorded SELL
has `pnl ≤ 0`, with `pnl = 0` exactly in the zero-cost case. -/
theorem c8_const_price_pnl (cost p : ℚ) (rows : List Row) (sgs : List Int)
    (cap0 : ℚ) (hc0 : 0 ≤ cost) (hc1 : cost ≤ 10000) (hp : 0 < p)
    (hcap : 0 ≤ cap0) (hconst : ∀ r ∈ rows, r.close = p) :
    ∀ ts pr ex pnl capa,
      TradeRec.sell ts pr ex pnl capa ∈
        (simulate_trading cost rows sgs ⟨cap0, 0, 0⟩).1 →
      pnl ≤ 0 ∧ (cost = 0 → pnl = 0) := by
  exact c8_aux cost p hc0 hc1 hp rows sgs ⟨cap0, 0, 0⟩ hconst hcap
    (fun h => by simp at h)

/-- C8 witness: a zero-cost round trip on the constant-price series
`const_df` — its one SELL record has `pnl = 0`. -/
theorem c8_const_price_pnl_witness :
    (∀ r ∈ const_df, r.close = 100) ∧
      (∀ ts pr ex pnl capa,
        TradeRec.sell ts pr ex pnl capa ∈
          (simulate_trading 0 const_df [1, -1] ⟨10000, 0, 0⟩).1 →
        pnl ≤ 0 ∧ ((0 : ℚ) = 0 → pnl = 0)) := by
  have hconst : ∀ r ∈ const_df, r.close = 100 := by
    intro r hr
    rcases List.mem_cons.mp hr with rfl | hr
    · rfl
    rcases List.mem_cons.mp hr with rfl | hr
    · rfl
    · simp at hr
  exact ⟨hconst, c8_const_price_pnl 0 100 const_df [1, -1] 10000 (by norm_num)
    (by norm_num) (by norm_num) (by norm_num) hconst⟩

/-- C8 counterexample: with the default-style positive cost of 10 bps per
leg, a BUY/SELL round trip on the constant-price series `const_df` records
a SELL with `pnl = -20000/1001 ≠ 0`. -/
theorem c8_counterexample :
    const_df.map Row.close = [100, 100] ∧
      sell_pnls (simulate_trading 10 const_df [1, -1] ⟨10000, 0, 0⟩).1
        = [-20000/1001] ∧
      (-20000/1001 : ℚ) ≠ 0 := by
  refine ⟨?_, ?_, ?_⟩
  · with_unfolding_all rfl
  · with_unfolding_all rfl
  · with_unfolding_all decide

/-- C9: in a single simulated row, capital changes only when a SELL signal
arrives while the position is LONG; for every other signal/position
combination — BUY entry, SELL while flat, HOLD — the capital after the row
equals the capital before it. -/
theorem c9_capital_frame (cost : ℚ) (st : SimState) (row : Row) (sg : Int)
    (h : ¬ (sg = -1 ∧ st.position = 1)) :
    (simulate_step cost st row sg).1.capital = st.capital := by
  by_cases h1 : sg = 1 ∧ st.position = 0
  · rw [simulate_step_buy cost st row sg h1.1 h1.2]
  · rw [simulate_step_hold cost st row sg h1 h]

/-- C9 witness: a BUY entry (signal 1 while flat) leaves capital unchanged. -/
theorem c9_capital_frame_witness :
    ¬ ((1 : Int) = -1 ∧ (⟨10000, 0, 0⟩ : SimState).position = 1) ∧
      (simulate_step 10 ⟨10000, 0, 0⟩ ⟨0, 100⟩ 1).1.capital
        = (⟨10000, 0, 0⟩ : SimState).capital := by
  have h : ¬ ((1 : Int) = -1 ∧ (⟨10000, 0, 0⟩ : SimState).position = 1) := by
    rintro ⟨h, -⟩
    exact absurd h (by decide)
  exact ⟨h, c9_capital_frame 10 ⟨10000, 0, 0⟩ ⟨0, 100⟩ 1 h⟩

lemma sort_rows_sorted (df : List Row) : (sort_rows df).Sorted ts_le :=
  List.sorted_insertionSort ts_le df

lemma sort_rows_perm (df : List Row) : (sort_rows df).Perm df :=
  List.perm_insertionSort ts_le df

lemma sort_rows_eq_of_perm (df df' : List Row) (hperm : df.Perm df')
    (hnodup : (df.map Row.timestamp).Nodup) :
    sort_rows df = sort_rows df' := by
  have hp : (sort_rows df).Perm (sort_rows df') :=
    (sort_rows_perm df).trans (hperm.trans (sort_rows_perm df').symm)
  have hne_df : df.Pairwise fun a b => a.timestamp ≠ b.timestamp :=
    List.pairwise_map.mp hnodup
  have hsymm : ∀ {x y : Row}, x.timestamp ≠ y.timestamp → y.timestamp ≠ x.timestamp :=
    fun h => h.symm
  have hne1 : (sort_rows df).Pairwise fun a b => a.timestamp ≠ b.timestamp :=
    ((sort_rows_perm df).pairwise_iff hsymm).mpr hne_df
  have hne2 : (sort_rows df').Pairwise fun a b => a.timestamp ≠ b.timestamp :=
    ((sort_rows_perm df').pairwise_iff hsymm).mpr
      ((hperm.pairwise_iff hsymm).mp hne_df)
  have hlt1 : (sort_rows df).Sorted ts_lt :=
    ((sort_rows_sorted df).and hne1).imp fun h => lt_of_le_of_ne h.1 h.2
  have hlt2 : (sort_rows df').Sorted ts_lt :=
    ((sort_rows_sorted df').and hne2).imp fun h => lt_of_le_of_ne h.1 h.2
  exact List.eq_of_perm_of_sorted hp hlt1 hlt2

/-- C10: `run` sorts the input by timestamp before scheduling folds, so for
tables with pairwise distinct timestamps the whole run result — carried
state, fold reports, trade log and equity curve — is invariant under any
permutation of the input rows. -/
theorem c10_run_perm_invariant (cfg : BTConfig)
    (sig : List Row → List Row → List Int) (cap0 : ℚ) (df df' : List Row)
    (hperm : df.Perm df') (hnodup : (df.map Row.timestamp).Nodup) :
    run cfg sig df cap0 = run cfg sig df' cap0 := by
  rw [run, run, sort_rows_eq_of_perm df df' hperm hnodup]

/-- C10 witness: the theorem applied to a two-row table given in reversed
order. -/
theorem c10_run_perm_invariant_witness :
    ([(⟨0, 1⟩ : Row), ⟨1, 2⟩].Perm [⟨1, 2⟩, ⟨0, 1⟩]) ∧
      (([(⟨0, 1⟩ : Row), ⟨1, 2⟩].map Row.timestamp).Nodup) ∧
      run sample_cfg null_sig [⟨0, 1⟩, ⟨1, 2⟩] 100
        = run sample_cfg null_sig [⟨1, 2⟩, ⟨0, 1⟩] 100 := by
  have hperm : ([(⟨0, 1⟩ : Row), ⟨1, 2⟩].Perm [⟨1, 2⟩, ⟨0, 1⟩]) :=
    List.Perm.swap (⟨1, 2⟩ : Row) (⟨0, 1⟩ : Row) []
  have hnodup : (([(⟨0, 1⟩ : Row), ⟨1, 2⟩].map Row.timestamp).Nodup) := by decide
  exact ⟨hperm, hnodup,
    c10_run_perm_invariant sample_cfg null_sig 100 _ _ hperm hnodup⟩
